import Mathlib

/-!
Verification of the schemamatic conversion engine (src/convert.rs and
src/linkml_to_shex.rs) against its natural-language specification.

The generic document trees (serde_json::Value, serde_yaml::Value) are modelled
as inductive types whose mappings are insertion-ordered association lists, as
required by the specification's GenericNode data model (spec section 3 and the
design note demanding insertion-order-preserving mappings).  Machine integers
(u64, i64) are modelled as Nat/Int; JSON numbers are modelled as Int, which
covers every number the engine reads or writes (cardinalities).  Fallible code
(the back-translator) returns Except.  File paths and text (de)serialization
are outside the engine per the spec, so the LinkML emitter takes the input
identifier as a string and the back-translator consumes an already-parsed
document tree.
-/

/-- Model of serde_json::Value: the generic JSON tree the extractor walks. -/
inductive JsonValue where
  | null
  | bool (b : Bool)
  | num (n : Int)
  | str (s : String)
  | arr (elems : List JsonValue)
  | obj (fields : List (String × JsonValue))
deriving Repr

/-- Model of serde_yaml::Value: the generic YAML tree of LinkML documents.
Mapping keys are themselves YAML values, as in serde_yaml. -/
inductive YamlValue where
  | null
  | bool (b : Bool)
  | num (n : Int)
  | str (s : String)
  | seq (elems : List YamlValue)
  | map (entries : List (YamlValue × YamlValue))
deriving Repr

/-- PropertyInfo from src/convert.rs. -/
structure PropertyInfo where
  name : String
  predicate : String
  range : String
  min : Option Nat
  max : Option Nat
deriving Repr, DecidableEq

/-- ShapeInfo from src/convert.rs. -/
structure ShapeInfo where
  id : String
  name : String
  properties : List PropertyInfo
deriving Repr, DecidableEq

/-- serde_json::Map::get - first entry with the given key. -/
def jget (fields : List (String × JsonValue)) (k : String) : Option JsonValue :=
  (fields.find? (fun kv => kv.1 == k)).map (fun kv => kv.2)

/-- serde_json::Map::contains_key. -/
def jhas (fields : List (String × JsonValue)) (k : String) : Bool :=
  fields.any (fun kv => kv.1 == k)

/-- serde_json::Value::get with a string index: None on non-objects. -/
def JsonValue.getKey : JsonValue → String → Option JsonValue
  | JsonValue.obj fields, k => jget fields k
  | _, _ => none

/-- serde_json::Value::as_str. -/
def JsonValue.asStr : JsonValue → Option String
  | JsonValue.str s => some s
  | _ => none

/-- serde_json::Value::as_u64: defined exactly on non-negative integers. -/
def JsonValue.asU64 : JsonValue → Option Nat
  | JsonValue.num n => if 0 ≤ n then some n.toNat else none
  | _ => none

/-- Rust str::starts_with, as a computation on character lists (so that the
kernel can evaluate it on concrete inputs). -/
def strBegins (p s : String) : Bool := p.data.isPrefixOf s.data

/-- The separator characters of build_prop_from_tc in src/convert.rs:
predicate.split(|c| c == '/' || c == '#' || c == ':'). -/
def sepChar (c : Char) : Bool := c == '/' || c == '#' || c == ':'

/-- Rust str::split on a character predicate, on character lists: the list of
segments between separator occurrences (always non-empty, possibly with empty
segments). -/
def splitBy (p : Char → Bool) : List Char → List (List Char)
  | [] => [[]]
  | c :: rest =>
    if p c then [] :: splitBy p rest
    else
      match splitBy p rest with
      | h :: t => (c :: h) :: t
      | [] => [[c]]

/-- predicate.split(|c| c == '/' || c == '#' || c == ':') from
build_prop_from_tc. -/
def splitSegs (l : List Char) : List (List Char) := splitBy sepChar l

/-- infer_range_from_tc from src/convert.rs. -/
def infer_range_from_tc (tcobj : List (String × JsonValue)) : String :=
  match (jget tcobj "datatype").bind JsonValue.asStr with
  | some dt =>
      if dt == "http://www.w3.org/2001/XMLSchema#integer" then "integer"
      else if dt == "http://www.w3.org/2001/XMLSchema#decimal" then "number"
      else if dt == "http://www.w3.org/2001/XMLSchema#boolean" then "boolean"
      else if strBegins "http://www.w3.org/2001/XMLSchema#" dt then "string"
      else dt
  | none =>
    match (jget tcobj "nodeKind").bind JsonValue.asStr with
    | some _ => "string"
    | none =>
      match jget tcobj "valueClass" with
      | some vc =>
          match vc with
          | JsonValue.str s => s
          | JsonValue.obj o =>
              match (jget o "reference").bind JsonValue.asStr with
              | some r => r
              | none => "string"
          | _ => "string"
      | none => "string"

/-- build_prop_from_tc from src/convert.rs. -/
def build_prop_from_tc (tcobj : List (String × JsonValue)) : PropertyInfo :=
  let predicate := ((jget tcobj "predicate").bind JsonValue.asStr).getD "<unknown>"
  let name := (((splitSegs predicate.data).getLast?).map String.mk).getD predicate
  { name := name
    predicate := predicate
    range := infer_range_from_tc tcobj
    min := (jget tcobj "min").bind JsonValue.asU64
    max := (jget tcobj "max").bind JsonValue.asU64 }

/-- The triple-constraint array loops of extract_props_from_shape: one
property per array element that is an object. -/
def tcs_props (a : List JsonValue) : List PropertyInfo :=
  a.filterMap (fun tc =>
    match tc with
    | JsonValue.obj tcobj => some (build_prop_from_tc tcobj)
    | _ => none)

/-- The items/expressions loop of extract_props_from_shape: one property per
array element that is an object containing a predicate key. -/
def items_props (a : List JsonValue) : List PropertyInfo :=
  a.filterMap (fun it =>
    match it with
    | JsonValue.obj itobj =>
        if jhas itobj "predicate" then some (build_prop_from_tc itobj) else none
    | _ => none)

/-- extract_props_from_shape from src/convert.rs. -/
def extract_props_from_shape (shape_val : JsonValue) : List PropertyInfo :=
  match shape_val with
  | JsonValue.obj fields =>
      let props :=
        match (jget fields "expression").orElse (fun _ => jget fields "shapeExpr") with
        | some expr =>
            let props1 :=
              match (expr.getKey "tripleConstraints").orElse
                  (fun _ => expr.getKey "triple_constraints") with
              | some (JsonValue.arr a) => tcs_props a
              | _ => []
            if props1.isEmpty then
              match (expr.getKey "items").orElse (fun _ => expr.getKey "expressions") with
              | some (JsonValue.arr a) => items_props a
              | _ => []
            else props1
        | none => []
      if props.isEmpty then
        match (jget fields "tripleConstraints").orElse
            (fun _ => jget fields "triple_constraints") with
        | some (JsonValue.arr a) => tcs_props a
        | _ => []
      else props
  | _ => []

/-- The first value of a mapping that is itself a mapping - the `if let
Some(m) = v2.as_object() ... return` scan inside walk_for_shapes. -/
def firstObjVal : List (String × JsonValue) → Option (List (String × JsonValue))
  | [] => none
  | kv :: rest =>
      match kv.2 with
      | JsonValue.obj m => some m
      | _ => firstObjVal rest

/-- The inner label/body loop of walk_for_shapes: each key of the mapping is a
shape label; a ShapeInfo is pushed when the extracted property list is
non-empty. -/
def shapes_of_container : List (String × JsonValue) → List ShapeInfo
  | [] => []
  | kv :: rest =>
      let props := extract_props_from_shape kv.2
      if props.isEmpty then shapes_of_container rest
      else { id := kv.1, name := kv.1, properties := props } :: shapes_of_container rest

mutual
/-- walk_for_shapes from src/convert.rs (the &mut Vec accumulator is rendered
as the returned list; pushes happen in the same order). -/
def walk_for_shapes : JsonValue → List ShapeInfo
  | JsonValue.obj fields =>
      if jhas fields "shapeExprs" || jhas fields "shapes" || jhas fields "shapeDecls" then
        match firstObjVal fields with
        | some m => shapes_of_container m
        | none => walk_fields fields
      else walk_fields fields
  | JsonValue.arr elems => walk_elems elems
  | _ => []

/-- The recursive descent of walk_for_shapes over the values of a mapping. -/
def walk_fields : List (String × JsonValue) → List ShapeInfo
  | [] => []
  | kv :: rest => walk_for_shapes kv.2 ++ walk_fields rest

/-- The recursive descent of walk_for_shapes over the elements of an array. -/
def walk_elems : List JsonValue → List ShapeInfo
  | [] => []
  | e :: rest => walk_for_shapes e ++ walk_elems rest
end

/-- extract_shapes_from_ast from src/convert.rs. -/
def extract_shapes_from_ast (ast : JsonValue) : List ShapeInfo :=
  walk_for_shapes ast

example :
    extract_shapes_from_ast
      (JsonValue.obj [("shapes", JsonValue.obj [("Person", JsonValue.obj
        [("tripleConstraints", JsonValue.arr
          [JsonValue.obj [("predicate", JsonValue.str "http://example.org/ns/2#name"),
                          ("datatype", JsonValue.str "http://www.w3.org/2001/XMLSchema#string")],
           JsonValue.obj [("predicate", JsonValue.str "http://example.org/ns/2#age"),
                          ("datatype", JsonValue.str "http://www.w3.org/2001/XMLSchema#integer"),
                          ("min", JsonValue.num 0), ("max", JsonValue.num 1)]])])])]) =
    [{ id := "Person", name := "Person", properties :=
        [{ name := "name", predicate := "http://example.org/ns/2#name",
           range := "string", min := none, max := none },
         { name := "age", predicate := "http://example.org/ns/2#age",
           range := "integer", min := some 0, max := some 1 }] }] := by
  decide

/-- serde_json::Map::insert for the string-keyed mappings the emitters build:
replaces the value in place when the key exists, appends otherwise (the
mapping is insertion-ordered, per the GenericNode model of spec section 3). -/
def insertMap (m : List (String × JsonValue)) (k : String) (v : JsonValue) :
    List (String × JsonValue) :=
  if m.any (fun kv => kv.1 == k) then
    m.map (fun kv => if kv.1 == k then (k, v) else kv)
  else m ++ [(k, v)]

/-- First-match lookup in a string-keyed JSON mapping. -/
def lookupStr (m : List (String × JsonValue)) (k : String) : Option JsonValue :=
  (m.find? (fun kv => kv.1 == k)).map (fun kv => kv.2)

/-- The per-range type-only schema chosen inside build_json_schema's property
loop. -/
def jtype_for_range (range : String) : JsonValue :=
  if range == "integer" then JsonValue.obj [("type", JsonValue.str "integer")]
  else if range == "number" then JsonValue.obj [("type", JsonValue.str "number")]
  else if range == "boolean" then JsonValue.obj [("type", JsonValue.str "boolean")]
  else JsonValue.obj [("type", JsonValue.str "string")]

/-- The per-shape definition object of build_json_schema: the joint
props/required loop, then the object assembly with required omitted when the
collected list is empty. -/
def shape_def (s : ShapeInfo) : JsonValue :=
  let pr := s.properties.foldl
    (fun (acc : List (String × JsonValue) × List JsonValue) p =>
      (insertMap acc.1 p.name (jtype_for_range p.range),
       if 0 < p.min.getD 0 then acc.2 ++ [JsonValue.str p.name] else acc.2))
    ([], [])
  JsonValue.obj
    ([("type", JsonValue.str "object"), ("properties", JsonValue.obj pr.1)] ++
     (if pr.2.isEmpty then [] else [("required", JsonValue.arr pr.2)]))

/-- The definitions mapping of build_json_schema: one insert per shape, keyed
by shape name. -/
def schema_defs (shapes : List ShapeInfo) : List (String × JsonValue) :=
  shapes.foldl (fun defs s => insertMap defs s.name (shape_def s)) []

/-- build_json_schema from src/convert.rs (its input-path argument is unused
in the source and dropped here). -/
def build_json_schema (shapes : List ShapeInfo) : JsonValue :=
  JsonValue.obj
    [("$schema", JsonValue.str "http://json-schema.org/draft-07/schema#"),
     ("$id", JsonValue.str "http://example.org/generated-schema"),
     ("definitions", JsonValue.obj (schema_defs shapes))]

/-- Equality of a serde_yaml mapping key with YamlValue::String(k):
a non-string key never matches a string lookup. -/
def YamlValue.keyEq : YamlValue → String → Bool
  | YamlValue.str s, t => s == t
  | _, _ => false

/-- serde_yaml::Mapping::get with a string key. -/
def ygetM (entries : List (YamlValue × YamlValue)) (k : String) : Option YamlValue :=
  (entries.find? (fun kv => kv.1.keyEq k)).map (fun kv => kv.2)

/-- serde_yaml::Value::get with a string key: None on non-mappings. -/
def yget (v : YamlValue) (k : String) : Option YamlValue :=
  match v with
  | YamlValue.map entries => ygetM entries k
  | _ => none

/-- serde_yaml::Value::as_str. -/
def YamlValue.asStr : YamlValue → Option String
  | YamlValue.str s => some s
  | _ => none

/-- serde_yaml::Value::as_i64. -/
def YamlValue.asI64 : YamlValue → Option Int
  | YamlValue.num n => some n
  | _ => none

/-- serde_yaml::Mapping::insert for string keys: replaces the value in place
when the key exists, appends otherwise (insertion-ordered mapping). -/
def insertYS (m : List (YamlValue × YamlValue)) (k : String) (v : YamlValue) :
    List (YamlValue × YamlValue) :=
  if m.any (fun kv => kv.1.keyEq k) then
    m.map (fun kv => if kv.1.keyEq k then (YamlValue.str k, v) else kv)
  else m ++ [(YamlValue.str k, v)]

/-- The slot entry built for one property inside build_linkml_doc: range
always (the source's if/else puts the same string in both branches), then
min_count/max_count when the property has min/max. -/
def slot_entry_of (p : PropertyInfo) : YamlValue :=
  YamlValue.map
    ([(YamlValue.str "range", YamlValue.str p.range)] ++
     (match p.min with
      | some mn => [(YamlValue.str "min_count", YamlValue.num (Int.ofNat mn))]
      | none => []) ++
     (match p.max with
      | some mx => [(YamlValue.str "max_count", YamlValue.num (Int.ofNat mx))]
      | none => []))

/-- build_linkml_doc from src/convert.rs. The input path argument only
contributes its file stem (with default "schema"); path handling is outside
the engine, so the identifier is taken as a string. -/
def build_linkml_doc (id : String) (shapes : List ShapeInfo) : YamlValue :=
  let maps := shapes.foldl
    (fun (acc : List (YamlValue × YamlValue) × List (YamlValue × YamlValue)) s =>
      (insertYS acc.1 s.name (YamlValue.map
         [(YamlValue.str "slots",
           YamlValue.seq (s.properties.map (fun p => YamlValue.str p.name)))]),
       s.properties.foldl (fun sm p => insertYS sm p.name (slot_entry_of p)) acc.2))
    ([], [])
  YamlValue.map
    [(YamlValue.str "id", YamlValue.str id),
     (YamlValue.str "prefixes", YamlValue.map
        [(YamlValue.str "ex", YamlValue.str "http://example.org/")]),
     (YamlValue.str "classes", YamlValue.map maps.1),
     (YamlValue.str "slots", YamlValue.map maps.2)]

/-- The prefix extraction of linkml_yaml_to_shex: the string-keyed,
string-valued entries of the prefixes mapping, in order; empty when prefixes
is absent or not a mapping. -/
def prefix_pairs (doc : YamlValue) : List (String × String) :=
  match yget doc "prefixes" with
  | some (YamlValue.map m) =>
      m.filterMap (fun kv =>
        match kv with
        | (YamlValue.str k1, YamlValue.str v1) => some (k1, v1)
        | _ => none)
  | _ => []

/-- The pred_for closure of linkml_yaml_to_shex: prefixes.get(0) decides the
predicate form. -/
def pred_for (prefixPairs : List (String × String)) (slot_name : String) : String :=
  match prefixPairs.head? with
  | some pv => pv.1 ++ ":" ++ slot_name
  | none => "http://example.org/" ++ slot_name

/-- One emitted slot line of linkml_yaml_to_shex: slot definition lookup with
defaults, cardinality marker, range-to-constraint text, then the formatted
line. -/
def slot_line (prefixPairs : List (String × String))
    (slots : List (YamlValue × YamlValue)) (slot_name : String) : String :=
  let rmm : String × Int × Int :=
    match ygetM slots slot_name with
    | some (YamlValue.map m) =>
        (((ygetM m "range").bind YamlValue.asStr).getD "string",
         ((ygetM m "min_count").bind YamlValue.asI64).getD 0,
         ((ygetM m "max_count").bind YamlValue.asI64).getD 1)
    | _ => ("string", 0, 1)
  let pred := pred_for prefixPairs slot_name
  let qc :=
    if rmm.2.1 = 0 ∧ 1 < rmm.2.2 then "*"
    else if rmm.2.1 = 1 ∧ 1 < rmm.2.2 then "+"
    else if rmm.2.1 = 1 ∧ rmm.2.2 = 1 then ""
    else "?"
  let constraint :=
    if rmm.1 == "string" then ""
    else if rmm.1 == "integer" then " xsd:integer"
    else ""
  "  " ++ pred ++ " " ++ constraint ++ qc ++ " ;\n"

/-- The text one class entry contributes in linkml_yaml_to_shex: the IRI
line for string-keyed entries, plus the brace block when the entry is a
mapping with a slots sequence; non-string class keys contribute nothing. -/
def class_block (prefixPairs : List (String × String))
    (slots : List (YamlValue × YamlValue)) (entry : YamlValue × YamlValue) : String :=
  match entry.1 with
  | YamlValue.str class_name =>
      "<" ++ class_name ++ "> IRI\n" ++
      (match entry.2 with
       | YamlValue.map m =>
           match ygetM m "slots" with
           | some (YamlValue.seq sarr) =>
               "\x7b\n" ++
               (sarr.foldl (fun o sv =>
                  match sv with
                  | YamlValue.str slot_name => o ++ slot_line prefixPairs slots slot_name
                  | _ => o) "") ++
               "\x7d\n\n"
           | _ => ""
       | _ => "")
  | _ => ""

/-- The class loop of linkml_yaml_to_shex accumulating the output string. -/
def classes_out (prefixPairs : List (String × String))
    (slots : List (YamlValue × YamlValue))
    (classes : List (YamlValue × YamlValue)) : String :=
  classes.foldl (fun out entry => out ++ class_block prefixPairs slots entry) ""

/-- linkml_yaml_to_shex from src/linkml_to_shex.rs, over an already-parsed
document tree (text parsing is the external serializer's job per the spec). -/
def linkml_yaml_to_shex (doc : YamlValue) : Except String String :=
  let ppairs := prefix_pairs doc
  match yget doc "classes" with
  | some (YamlValue.map classes) =>
      let slots :=
        match yget doc "slots" with
        | some (YamlValue.map m) => m
        | _ => []
      Except.ok (classes_out ppairs slots classes)
  | _ => Except.error "LinkML YAML missing `classes` mapping"

/-- Splitting a character list at newline characters, to speak about the
lines of emitted text. -/
def splitNl (l : List Char) : List (List Char) := splitBy (fun c => c == '\n') l

/-- Substring occurrence on character lists. -/
def occursIn (needle : List Char) : List Char → Bool
  | [] => needle.isEmpty
  | c :: t => needle.isPrefixOf (c :: t) || occursIn needle t

/-- Dropping the entries of a mapping whose key is the given string (used to
state the scenario that feeds a document with no prefixes entry to the
back-translator). -/
def removeStrKey (d : YamlValue) (k : String) : YamlValue :=
  match d with
  | YamlValue.map entries =>
      YamlValue.map (entries.filter (fun kv => !kv.1.keyEq k))
  | v => v

/-- End-to-end scenario 1 input (spec section 8): shape Person with
constraints name (xsd string) and age (xsd integer, min 0, max 1). -/
def scenario1_ast : JsonValue :=
  JsonValue.obj [("shapes", JsonValue.obj [("Person", JsonValue.obj
    [("tripleConstraints", JsonValue.arr
      [JsonValue.obj [("predicate", JsonValue.str "http://example.org/ns/2#name"),
                      ("datatype", JsonValue.str "http://www.w3.org/2001/XMLSchema#string")],
       JsonValue.obj [("predicate", JsonValue.str "http://example.org/ns/2#age"),
                      ("datatype", JsonValue.str "http://www.w3.org/2001/XMLSchema#integer"),
                      ("min", JsonValue.num 0), ("max", JsonValue.num 1)]])])])]

/-- The intermediate model of scenario 1. -/
def scenario1_shapes : List ShapeInfo := extract_shapes_from_ast scenario1_ast

/-- Scenario 3 document: the LinkML document of scenario 1 with its prefixes
entry removed, as required by the claim about the back-translation with no
prefixes entry. -/
def scenario3_doc : YamlValue :=
  removeStrKey (build_linkml_doc "schema" scenario1_shapes) "prefixes"

/-- The text linkml_yaml_to_shex actually produces on scenario 3. -/
def sc3out : String :=
  "<Person> IRI\n\x7b\n  http://example.org/name ? ;\n  http://example.org/age  xsd:integer? ;\n\x7d\n\n"

example : linkml_yaml_to_shex scenario3_doc = Except.ok sc3out := by rfl

/-- A shape body with one extractable triple constraint (predicate p). -/
def c1_bodyA : JsonValue :=
  JsonValue.obj [("tripleConstraints", JsonValue.arr
    [JsonValue.obj [("predicate", JsonValue.str "http://e/p")]])]

/-- A second shape body with one extractable triple constraint (predicate q). -/
def c1_bodyB : JsonValue :=
  JsonValue.obj [("tripleConstraints", JsonValue.arr
    [JsonValue.obj [("predicate", JsonValue.str "http://e/q")]])]

/-- A recognition-key node with two mapping values, each holding a shape body
with a non-empty property list. -/
def c1_ast : JsonValue :=
  JsonValue.obj [("shapeExprs", JsonValue.obj [("A", c1_bodyA)]),
                 ("other", JsonValue.obj [("B", c1_bodyB)])]

/-- A LinkML document whose prefixes mapping's first entry has a non-string
value and whose second entry is a string-to-string pair. -/
def c3_doc : YamlValue :=
  YamlValue.map
    [(YamlValue.str "prefixes", YamlValue.map
        [(YamlValue.str "a", YamlValue.num 1),
         (YamlValue.str "b", YamlValue.str "http://b.example/")]),
     (YamlValue.str "classes", YamlValue.map
        [(YamlValue.str "C", YamlValue.map
           [(YamlValue.str "slots", YamlValue.seq [YamlValue.str "s"])])])]

example : linkml_yaml_to_shex c3_doc =
    Except.ok "<C> IRI\n\x7b\n  b:s ? ;\n\x7d\n\n" := by rfl

example : (extract_shapes_from_ast c1_ast).map ShapeInfo.name = ["A"] := by decide

/-- The recursive descent over mapping values, as a map-and-flatten. -/
lemma walk_fields_eq (fields : List (String × JsonValue)) :
    walk_fields fields = (fields.map (fun kv => walk_for_shapes kv.2)).flatten := by
  induction fields with
  | nil => rfl
  | cons kv rest ih => simp [walk_fields, ih]

/-- The recursive descent over array elements, as a map-and-flatten. -/
lemma walk_elems_eq (elems : List JsonValue) :
    walk_elems elems = (elems.map walk_for_shapes).flatten := by
  induction elems with
  | nil => rfl
  | cons e rest ih => simp [walk_elems, ih]

/-- The label/body loop of the shape container, as a filterMap. -/
lemma shapes_of_container_eq (m : List (String × JsonValue)) :
    shapes_of_container m =
      m.filterMap (fun kv =>
        if (extract_props_from_shape kv.2).isEmpty then none
        else some { id := kv.1, name := kv.1,
                    properties := extract_props_from_shape kv.2 }) := by
  induction m with
  | nil => rfl
  | cons kv rest ih =>
      simp only [shapes_of_container, List.filterMap_cons]
      by_cases h : (extract_props_from_shape kv.2).isEmpty
      · simp [h, ih]
      · simp [h, ih]

/-- The first-mapping-value scan, as a findSome?. -/
lemma firstObjVal_eq (fields : List (String × JsonValue)) :
    firstObjVal fields =
      fields.findSome? (fun kv =>
        match kv.2 with
        | JsonValue.obj m => some m
        | _ => none) := by
  induction fields with
  | nil => rfl
  | cons kv rest ih =>
      simp only [firstObjVal, List.findSome?_cons]
      cases kv.2 <;> simp [ih]

/-- Unfolding walk_for_shapes at a mapping node. -/
lemma walk_obj_eq (fields : List (String × JsonValue)) :
    walk_for_shapes (JsonValue.obj fields) =
      if jhas fields "shapeExprs" || jhas fields "shapes" || jhas fields "shapeDecls" then
        match firstObjVal fields with
        | some m => shapes_of_container m
        | none => walk_fields fields
      else walk_fields fields := by
  rfl

/-- Every ShapeInfo produced by the container loop has a non-empty property
list. -/
lemma mem_shapes_of_container (m : List (String × JsonValue)) (s : ShapeInfo)
    (h : s ∈ shapes_of_container m) : s.properties ≠ [] := by
  induction m with
  | nil => simp [shapes_of_container] at h
  | cons kv rest ih =>
      simp only [shapes_of_container] at h
      by_cases he : (extract_props_from_shape kv.2).isEmpty
      · rw [if_pos he] at h
        exact ih h
      · rw [if_neg he] at h
        rcases List.mem_cons.mp h with h1 | h2
        · subst h1
          simpa [List.isEmpty_iff] using he
        · exact ih h2

/-- Every shape the tree walk emits has a non-empty property list (mutual
functional induction over the walk). -/
lemma walk_props_nonempty : ∀ v : JsonValue, ∀ s ∈ walk_for_shapes v, s.properties ≠ [] := by
  intro v
  refine walk_for_shapes.induct
    (fun v => ∀ s ∈ walk_for_shapes v, s.properties ≠ [])
    (fun elems => ∀ s ∈ walk_elems elems, s.properties ≠ [])
    (fun fields => ∀ s ∈ walk_fields fields, s.properties ≠ [])
    ?_ ?_ ?_ ?_ ?_ ?_ ?_ ?_ ?_ v
  · intro fields hkey m hfirst s hs
    rw [walk_obj_eq, if_pos hkey, hfirst] at hs
    exact mem_shapes_of_container m s hs
  · intro fields hkey hnone ih s hs
    rw [walk_obj_eq, if_pos hkey, hnone] at hs
    exact ih s hs
  · intro fields hkey ih s hs
    rw [walk_obj_eq, if_neg hkey] at hs
    exact ih s hs
  · intro elems ih s hs
    exact ih s hs
  · intro t h1 h2 s hs
    cases t with
    | obj fields => exact (h1 fields rfl).elim
    | arr elems => exact (h2 elems rfl).elim
    | null => simp [walk_for_shapes] at hs
    | bool b => simp [walk_for_shapes] at hs
    | num n => simp [walk_for_shapes] at hs
    | str t => simp [walk_for_shapes] at hs
  · intro s hs
    simp [walk_elems] at hs
  · intro e rest ih1 ih2 s hs
    rw [walk_elems] at hs
    rcases List.mem_append.mp hs with h | h
    · exact ih1 s h
    · exact ih2 s h
  · intro s hs
    simp [walk_fields] at hs
  · intro kv rest ih1 ih2 s hs
    rw [walk_fields] at hs
    rcases List.mem_append.mp hs with h | h
    · exact ih1 s h
    · exact ih2 s h

/-- Unfolding lookupStr at a cons cell. -/
lemma lookupStr_cons (x : String × JsonValue) (l : List (String × JsonValue)) (k2 : String) :
    lookupStr (x :: l) k2 = if (x.1 == k2) = true then some x.2 else lookupStr l k2 := by
  rw [lookupStr, List.find?_cons]
  by_cases h : (x.1 == k2) = true
  · simp [h]
  · simp [h, lookupStr]

/-- Looking up the inserted key after a replace-in-place insert. -/
lemma lookupStr_map_self (m : List (String × JsonValue)) (k : String) (v : JsonValue)
    (h : m.any (fun kv => kv.1 == k) = true) :
    lookupStr (m.map (fun kv => if kv.1 == k then (k, v) else kv)) k = some v := by
  induction m with
  | nil => simp at h
  | cons kv rest ih =>
      rw [List.map_cons, lookupStr_cons]
      by_cases hk : (kv.1 == k) = true
      · simp [hk]
      · have h2 : rest.any (fun kv => kv.1 == k) = true := by
          simp only [List.any_cons, hk, Bool.false_or] at h
          exact h
        simp only [hk, if_false]
        rw [if_neg (by simpa using hk)]
        exact ih h2

/-- Looking up a different key after a replace-in-place insert. -/
lemma lookupStr_map_ne (m : List (String × JsonValue)) (k : String) (v : JsonValue)
    (k2 : String) (h : (k2 == k) = false) :
    lookupStr (m.map (fun kv => if kv.1 == k then (k, v) else kv)) k2 = lookupStr m k2 := by
  induction m with
  | nil => rfl
  | cons kv rest ih =>
      rw [List.map_cons, lookupStr_cons, lookupStr_cons]
      by_cases hk : (kv.1 == k) = true
      · have hkv : kv.1 = k := by simpa using hk
        have hne : (k == k2) = false := by
          simp only [beq_eq_false_iff_ne, ne_eq] at h ⊢
          exact fun e => h e.symm
        simp only [hk, if_true]
        rw [if_neg (by simpa using hne), if_neg (by rw [hkv]; simpa using hne)]
        exact ih
      · rw [show (if (kv.1 == k) = true then (k, v) else kv) = kv from if_neg hk]
        by_cases h3 : (kv.1 == k2) = true
        · rw [if_pos h3, if_pos h3]
        · rw [if_neg h3, if_neg h3]
          exact ih

/-- serde map insert followed by lookup. -/
lemma lookupStr_insertMap (m : List (String × JsonValue)) (k : String) (v : JsonValue)
    (k2 : String) :
    lookupStr (insertMap m k v) k2 = if k2 = k then some v else lookupStr m k2 := by
  by_cases ha : m.any (fun kv => kv.1 == k) = true
  · rw [insertMap, if_pos ha]
    by_cases hk : k2 = k
    · subst hk
      rw [if_pos rfl]
      exact lookupStr_map_self m k2 v ha
    · rw [if_neg hk]
      exact lookupStr_map_ne m k v k2 (by simpa using hk)
  · rw [insertMap, if_neg ha]
    by_cases hk : k2 = k
    · subst hk
      have hnone : List.find? (fun kv => kv.1 == k2) m = none := by
        rw [List.find?_eq_none]
        intro x hx hpx
        exact ha (List.any_eq_true.mpr ⟨x, hx, hpx⟩)
      rw [if_pos rfl, lookupStr, List.find?_append, hnone, Option.none_or]
      simp [List.find?_cons]
    · have hne : (k == k2) = false := by
        simp only [beq_eq_false_iff_ne, ne_eq]
        exact fun e => hk e.symm
      rw [if_neg hk, lookupStr, List.find?_append]
      cases hfind : List.find? (fun kv => kv.1 == k2) m with
      | some kv => simp [lookupStr, hfind]
      | none =>
          rw [Option.none_or]
          simp [lookupStr, hfind, List.find?_cons, hne]

/-- Replace-in-place insert keeps the key list unchanged when the key is
already present, and appends a fresh key otherwise, so nodup keys are
preserved. -/
lemma keys_insertMap_nodup (m : List (String × JsonValue)) (k : String) (v : JsonValue)
    (h : (m.map Prod.fst).Nodup) : ((insertMap m k v).map Prod.fst).Nodup := by
  by_cases ha : m.any (fun kv => kv.1 == k) = true
  · rw [insertMap, if_pos ha]
    have heq : (m.map (fun kv => if kv.1 == k then (k, v) else kv)).map Prod.fst =
        m.map Prod.fst := by
      rw [List.map_map]
      apply List.map_congr_left
      intro a _
      by_cases h2 : (a.1 == k) = true
      · have ha2 : a.1 = k := by simpa using h2
        simp [Function.comp, h2, ha2]
      · simp [Function.comp, h2]
    rw [heq]
    exact h
  · rw [insertMap, if_neg ha, List.map_append]
    refine List.Nodup.append h (by simp) ?_
    intro x hx hx2
    have hxk : x = k := by simpa using hx2
    subst hxk
    rcases List.mem_map.mp hx with ⟨kv, hkv, hfst⟩
    exact ha (List.any_eq_true.mpr ⟨kv, hkv, by simp [hfst]⟩)

/-- The definitions fold preserves nodup keys from any accumulator. -/
lemma schema_defs_fold_nodup (shapes : List ShapeInfo) :
    ∀ acc : List (String × JsonValue), (acc.map Prod.fst).Nodup →
      ((shapes.foldl (fun defs s => insertMap defs s.name (shape_def s)) acc).map
        Prod.fst).Nodup := by
  induction shapes with
  | nil => intro acc h; exact h
  | cons s rest ih =>
      intro acc h
      exact ih _ (keys_insertMap_nodup acc s.name (shape_def s) h)

/-- Looking up a name in the definitions fold finds the definition of the
last shape with that name, falling back to the accumulator. -/
lemma lookupStr_defs_fold (shapes : List ShapeInfo) :
    ∀ (acc : List (String × JsonValue)) (nm : String),
      lookupStr (shapes.foldl (fun defs s => insertMap defs s.name (shape_def s)) acc) nm =
        (match shapes.reverse.find? (fun s => s.name == nm) with
         | some s => some (shape_def s)
         | none => lookupStr acc nm) := by
  induction shapes with
  | nil => intro acc nm; rfl
  | cons s rest ih =>
      intro acc nm
      rw [List.foldl_cons, ih, List.reverse_cons, List.find?_append]
      cases hfind : rest.reverse.find? (fun s2 => s2.name == nm) with
      | some s2 => simp
      | none =>
          rw [Option.none_or, lookupStr_insertMap]
          by_cases hn : nm = s.name
          · subst hn
            simp [List.find?_cons]
          · rw [if_neg hn]
            have hne : (s.name == nm) = false := by
              simp only [beq_eq_false_iff_ne, ne_eq]
              exact fun e => hn e.symm
            simp [List.find?_cons, hne]

/-- The required list accumulated by the shape_def fold is the name list of
the properties whose min defaults-to-zero value is positive, in order. -/
lemma shape_def_req_fold (props : List PropertyInfo) :
    ∀ (m0 : List (String × JsonValue)) (r0 : List JsonValue),
      (props.foldl
        (fun (acc : List (String × JsonValue) × List JsonValue) p =>
          (insertMap acc.1 p.name (jtype_for_range p.range),
           if 0 < p.min.getD 0 then acc.2 ++ [JsonValue.str p.name] else acc.2))
        (m0, r0)).2 =
      r0 ++ (props.filter (fun p => decide (0 < p.min.getD 0))).map
        (fun p => JsonValue.str p.name) := by
  induction props with
  | nil => intro m0 r0; simp
  | cons p rest ih =>
      intro m0 r0
      simp only [List.foldl_cons, List.filter_cons]
      by_cases h : 0 < p.min.getD 0
      · rw [if_pos h, ih]
        simp [h, List.append_assoc]
      · rw [if_neg h, ih]
        simp [h]

/-- The required key of an emitted shape definition. -/
lemma shape_def_required (s : ShapeInfo) :
    JsonValue.getKey (shape_def s) "required" =
      (if ((s.properties.filter (fun p => decide (0 < p.min.getD 0))).map
            (fun p => JsonValue.str p.name)).isEmpty = true
       then none
       else some (JsonValue.arr ((s.properties.filter
              (fun p => decide (0 < p.min.getD 0))).map
              (fun p => JsonValue.str p.name)))) := by
  have hsnd := shape_def_req_fold s.properties [] []
  rw [List.nil_append] at hsnd
  simp only [shape_def]
  rw [hsnd]
  by_cases h : ((s.properties.filter (fun p => decide (0 < p.min.getD 0))).map
      (fun p => JsonValue.str p.name)).isEmpty = true
  · rw [if_pos h, if_pos h]
    rfl
  · rw [if_neg h, if_neg h]
    rfl

/-- Lookup in an appended YAML mapping. -/
lemma ygetM_append (l1 l2 : List (YamlValue × YamlValue)) (k : String) :
    ygetM (l1 ++ l2) k =
      (match ygetM l1 k with
       | some v => some v
       | none => ygetM l2 k) := by
  rw [ygetM, List.find?_append]
  cases h : l1.find? (fun kv => kv.1.keyEq k) with
  | some kv => simp [ygetM, h]
  | none => simp [ygetM, h]

/-- splitBy never returns the empty list. -/
lemma splitBy_ne_nil (p : Char → Bool) (l : List Char) : splitBy p l ≠ [] := by
  induction l with
  | nil => simp [splitBy]
  | cons c rest ih =>
      rw [splitBy]
      by_cases h : p c = true
      · simp [h]
      · rw [if_neg (by simp [h])]
        cases hs : splitBy p rest with
        | nil => simp
        | cons hd tl => simp

/-- With no separator present, splitBy returns the whole input as the single
segment. -/
lemma splitBy_all_neg (p : Char → Bool) (l : List Char) (h : ∀ c ∈ l, p c = false) :
    splitBy p l = [l] := by
  induction l with
  | nil => rfl
  | cons c rest ih =>
      rw [splitBy]
      have hc : p c = false := h c (List.mem_cons_self c rest)
      rw [if_neg (by simp [hc])]
      rw [ih (fun c2 hc2 => h c2 (List.mem_cons_of_mem c hc2))]

/-- With a separator present, splitBy returns at least two segments. -/
lemma splitBy_length_two (p : Char → Bool) (l : List Char) (c : Char)
    (hc : p c = true) (hm : c ∈ l) : 2 ≤ (splitBy p l).length := by
  induction l with
  | nil => simp at hm
  | cons d rest ih =>
      rw [splitBy]
      by_cases hd : p d = true
      · rw [if_pos (by simp [hd])]
        have h1 : 0 < (splitBy p rest).length :=
          List.length_pos.mpr (splitBy_ne_nil p rest)
        simp only [List.length_cons]
        omega
      · rw [if_neg (by simp [hd])]
        rcases List.mem_cons.mp hm with he | hm2
        · exact absurd (he ▸ hc) (by simpa using hd)
        · have h2 := ih hm2
          cases hs : splitBy p rest with
          | nil => exact absurd hs (splitBy_ne_nil p rest)
          | cons hd2 tl =>
              rw [hs] at h2
              simp only [List.length_cons] at h2 ⊢
              omega

/-- getLast? skips a head in front of a non-empty tail. -/
lemma getLast?_cons_of_ne_nil {α : Type} (x : α) (l : List α) (h : l ≠ []) :
    (x :: l).getLast? = l.getLast? := by
  cases l with
  | nil => exact absurd rfl h
  | cons y t => rw [List.getLast?_cons_cons]

/-- The last segment of splitBy on a list ending with a separator-free suffix
after a separator is exactly that suffix. -/
lemma splitBy_getLast_append (p : Char → Bool) (c : Char) (l2 : List Char)
    (hc : p c = true) (hl2 : ∀ x ∈ l2, p x = false) :
    ∀ l1 : List Char, (splitBy p (l1 ++ c :: l2)).getLast? = some l2 := by
  intro l1
  induction l1 with
  | nil =>
      simp only [List.nil_append]
      rw [splitBy, if_pos (by simp [hc]), splitBy_all_neg p l2 hl2]
      rfl
  | cons d rest ih =>
      rw [List.cons_append, splitBy]
      by_cases hd : p d = true
      · rw [if_pos (by simp [hd])]
        rw [getLast?_cons_of_ne_nil _ _ (splitBy_ne_nil p _)]
        exact ih
      · rw [if_neg (by simp [hd])]
        have hlen : 2 ≤ (splitBy p (rest ++ c :: l2)).length :=
          splitBy_length_two p _ c hc (by simp)
        cases hs : splitBy p (rest ++ c :: l2) with
        | nil => exact absurd hs (splitBy_ne_nil p _)
        | cons hd2 tl =>
            rw [hs] at ih hlen
            have htl : tl ≠ [] := by
              intro he
              rw [he] at hlen
              simp at hlen
            rw [getLast?_cons_of_ne_nil _ _ htl]
            rw [getLast?_cons_of_ne_nil _ _ htl] at ih
            exact ih

/-- The back-translator's predicate builder only looks at the head of the
prefix pair list. -/
lemma pred_for_head_congr (p1 p2 : List (String × String)) (h : p1.head? = p2.head?)
    (sn : String) : pred_for p1 sn = pred_for p2 sn := by
  rw [pred_for, pred_for, h]

/-- A slot line depends on the prefix pairs only through their head. -/
lemma slot_line_head_congr (p1 p2 : List (String × String)) (h : p1.head? = p2.head?)
    (slots : List (YamlValue × YamlValue)) (sn : String) :
    slot_line p1 slots sn = slot_line p2 slots sn := by
  simp only [slot_line]
  rw [pred_for_head_congr p1 p2 h]

/-- A class block depends on the prefix pairs only through their head. -/
lemma class_block_head_congr (p1 p2 : List (String × String)) (h : p1.head? = p2.head?)
    (slots : List (YamlValue × YamlValue)) (entry : YamlValue × YamlValue) :
    class_block p1 slots entry = class_block p2 slots entry := by
  simp only [class_block]
  simp only [slot_line_head_congr p1 p2 h]

/-- The emitted class text depends on the prefix pairs only through their
head. -/
lemma classes_out_head_congr (p1 p2 : List (String × String)) (h : p1.head? = p2.head?)
    (slots : List (YamlValue × YamlValue)) (classes : List (YamlValue × YamlValue)) :
    classes_out p1 slots classes = classes_out p2 slots classes := by
  simp only [classes_out]
  simp only [class_block_head_congr p1 p2 h]

/-- Unfolding the back-translator. -/
lemma linkml_yaml_to_shex_eq (doc : YamlValue) :
    linkml_yaml_to_shex doc =
      (match yget doc "classes" with
       | some (YamlValue.map classes) =>
           Except.ok (classes_out (prefix_pairs doc)
             (match yget doc "slots" with
              | some (YamlValue.map m) => m
              | _ => []) classes)
       | _ => Except.error "LinkML YAML missing `classes` mapping") := by
  rfl

/-- Except.isOk on a success. -/
lemma exceptIsOk_ok (s : String) : (Except.ok s : Except String String).isOk = true := rfl

/-- Except.isOk on an error. -/
lemma exceptIsOk_error (e : String) :
    (Except.error e : Except String String).isOk = false := rfl

/-- String.mk is a left inverse of String.data. -/
lemma strMkData (s : String) : String.mk s.data = s := by cases s; rfl

/-- splitSegs with no separator in the input. -/
lemma splitSegs_all_neg (l : List Char) (h : ∀ c ∈ l, sepChar c = false) :
    splitSegs l = [l] :=
  splitBy_all_neg sepChar l h

/-- The last segment of splitSegs after the last separator. -/
lemma splitSegs_getLast (c : Char) (l2 : List Char) (hc : sepChar c = true)
    (hl2 : ∀ x ∈ l2, sepChar x = false) (l1 : List Char) :
    (splitSegs (l1 ++ c :: l2)).getLast? = some l2 :=
  splitBy_getLast_append sepChar c l2 hc hl2 l1

/-- The claim's filter condition (min present and positive) agrees with the
source's min.unwrap_or(0) > 0 condition. -/
lemma min_pred_eq (p : PropertyInfo) :
    (match p.min with
     | some mn => decide (0 < mn)
     | none => false) = decide (0 < p.min.getD 0) := by
  cases hm : p.min <;> simp

/-- Claim C1 counterexample: c1_ast is a mapping node whose key set contains
the recognition key "shapeExprs" and which has two mapping values; the
second mapping value holds the label "B" with a body whose extracted
property list is non-empty, yet the extractor emits only the shape "A" from
the first mapping value - so it is false that every value under the node
that is itself a mapping is treated as a set of shape-label/shape-body
pairs. -/
theorem c1_counterexample :
    c1_ast = JsonValue.obj [("shapeExprs", JsonValue.obj [("A", c1_bodyA)]),
                            ("other", JsonValue.obj [("B", c1_bodyB)])] ∧
    extract_props_from_shape c1_bodyB ≠ [] ∧
    (extract_shapes_from_ast c1_ast).map ShapeInfo.name = ["A"] :=
  ⟨rfl, by decide, by decide⟩

/-- Claim C1 (amended): at a mapping node whose key set contains one of
"shapeExprs", "shapes", "shapeDecls", the extractor treats only the FIRST
value under that node that is itself a mapping as the set of
shape-label/shape-body pairs (every key of that first mapping becomes a
shape label, emitted as a Shape when the extracted property list is
non-empty) and then stops descending into that node entirely; when the
recognition key is present but no value is a mapping, and at nodes with no
recognition key, it recurses into every child value; arrays recurse into
every element. -/
theorem c1_walk_container (fields : List (String × JsonValue)) (elems : List JsonValue) :
    (walk_for_shapes (JsonValue.obj fields) =
      if jhas fields "shapeExprs" || jhas fields "shapes" || jhas fields "shapeDecls" then
        match fields.findSome? (fun kv =>
            match kv.2 with
            | JsonValue.obj m => some m
            | _ => none) with
        | some m =>
            m.filterMap (fun kv =>
              if (extract_props_from_shape kv.2).isEmpty then none
              else some { id := kv.1, name := kv.1,
                          properties := extract_props_from_shape kv.2 })
        | none => (fields.map (fun kv => walk_for_shapes kv.2)).flatten
      else (fields.map (fun kv => walk_for_shapes kv.2)).flatten) ∧
    walk_for_shapes (JsonValue.arr elems) = (elems.map walk_for_shapes).flatten := by
  constructor
  · rw [walk_obj_eq, ← firstObjVal_eq]
    by_cases h : (jhas fields "shapeExprs" || jhas fields "shapes" ||
        jhas fields "shapeDecls") = true
    · rw [if_pos h, if_pos h]
      cases hf : firstObjVal fields with
      | some m => exact shapes_of_container_eq m
      | none => exact walk_fields_eq fields
    · rw [if_neg h, if_neg h]
      exact walk_fields_eq fields
  · rw [show walk_for_shapes (JsonValue.arr elems) = walk_elems elems from rfl]
    exact walk_elems_eq elems

/-- Claim C2 counterexample: the back-translation of the scenario-1 LinkML
document without its prefixes entry succeeds, but none of its lines is
"  http://example.org/age ?;" - the age slot line is emitted with the
xsd:integer constraint text and a space before the semicolon. -/
theorem c2_counterexample :
    linkml_yaml_to_shex scenario3_doc = Except.ok sc3out ∧
    "  http://example.org/age ?;".data ∉ splitNl sc3out.data :=
  ⟨rfl, by decide⟩

/-- Claim C2 (amended): feeding the LinkML document produced from end-to-end
scenario 1 into the back-translator with no prefixes entry produces output
that contains the literal substring "<Person> IRI" and the exact line
"  http://example.org/age  xsd:integer? ;" (a two-space indent, the
predicate, two spaces, the xsd:integer constraint, the "?" cardinality
marker, a space, and the semicolon). -/
theorem c2_scenario3_output :
    linkml_yaml_to_shex scenario3_doc = Except.ok sc3out ∧
    occursIn "<Person> IRI".data sc3out.data = true ∧
    "  http://example.org/age  xsd:integer? ;".data ∈ splitNl sc3out.data :=
  ⟨rfl, by decide, by decide⟩

/-- Claim C3 counterexample: in c3_doc the prefixes mapping's first entry has
key "a" (with a numeric value), but the back-translator builds the predicate
from the second entry's key "b": "a:s" occurs nowhere in the output. -/
theorem c3_counterexample :
    (match yget c3_doc "prefixes" with
     | some (YamlValue.map m) => m.head?
     | _ => none) = some (YamlValue.str "a", YamlValue.num 1) ∧
    linkml_yaml_to_shex c3_doc = Except.ok "<C> IRI\n\x7b\n  b:s ? ;\n\x7d\n\n" ∧
    occursIn "a:s".data "<C> IRI\n\x7b\n  b:s ? ;\n\x7d\n\n".data = false :=
  ⟨rfl, rfl, by decide⟩

/-- Claim C3 (amended): the key of the FIRST string-key/string-value entry of
the prefixes mapping is used to build every predicate as
"<prefix>:<slotName>" (entries whose key or value is not a string are
skipped; the prefix IRI value and all later entries are never consulted);
when no string-to-string entry exists - in particular when prefixes is
absent or empty - every predicate is "http://example.org/<slotName>"; the
whole output depends on the prefixes mapping only through that first string
pair. -/
theorem c3_predicate_derivation :
    (∀ (pfx iri : String) (rest : List (String × String)) (slot : String),
       pred_for ((pfx, iri) :: rest) slot = pfx ++ ":" ++ slot) ∧
    (∀ slot : String, pred_for [] slot = "http://example.org/" ++ slot) ∧
    (∀ doc1 doc2 : YamlValue,
       (prefix_pairs doc1).head? = (prefix_pairs doc2).head? →
       yget doc1 "classes" = yget doc2 "classes" →
       yget doc1 "slots" = yget doc2 "slots" →
       linkml_yaml_to_shex doc1 = linkml_yaml_to_shex doc2) := by
  refine ⟨fun pfx iri rest slot => rfl, fun slot => rfl, ?_⟩
  intro doc1 doc2 hp hc hs
  rw [linkml_yaml_to_shex_eq, linkml_yaml_to_shex_eq, hc, hs]
  cases hcl : yget doc2 "classes" with
  | none => rfl
  | some v =>
      cases v with
      | map classes =>
          exact congrArg Except.ok
            (classes_out_head_congr (prefix_pairs doc1) (prefix_pairs doc2) hp _ classes)
      | null => rfl
      | bool b => rfl
      | num n => rfl
      | str s => rfl
      | seq es => rfl

/-- A document like c3_doc but with junk and a second string entry after the
first string prefix pair. -/
def c3_docA : YamlValue :=
  YamlValue.map
    [(YamlValue.str "prefixes", YamlValue.map
        [(YamlValue.str "b", YamlValue.str "http://one/"),
         (YamlValue.str "c", YamlValue.num 7),
         (YamlValue.str "d", YamlValue.str "http://two/")]),
     (YamlValue.str "classes", YamlValue.map
        [(YamlValue.str "C", YamlValue.map
           [(YamlValue.str "slots", YamlValue.seq [YamlValue.str "s"])])])]

/-- The same document with only the first string prefix pair, with a
different IRI value. -/
def c3_docB : YamlValue :=
  YamlValue.map
    [(YamlValue.str "prefixes", YamlValue.map
        [(YamlValue.str "b", YamlValue.str "http://one/")]),
     (YamlValue.str "classes", YamlValue.map
        [(YamlValue.str "C", YamlValue.map
           [(YamlValue.str "slots", YamlValue.seq [YamlValue.str "s"])])])]

/-- Witness for the amended C3 theorem at concrete documents. -/
theorem c3_witness : linkml_yaml_to_shex c3_docA = linkml_yaml_to_shex c3_docB :=
  c3_predicate_derivation.2.2 c3_docA c3_docB rfl rfl rfl

/-- Claim C4: range inference applies datatype, nodeKind, valueClass in
priority order: a datatype string maps the xsd integer/decimal/boolean IRIs
to "integer"/"number"/"boolean", any other identifier under the xsd
namespace to "string", and any identifier outside it verbatim; any nodeKind
string yields "string"; a string valueClass is returned verbatim, a mapping
valueClass with a string reference field yields that reference, any other
valueClass yields "string"; with none of the three keys the result is
"string". -/
theorem c4_range_inference (tcobj : List (String × JsonValue)) :
    (∀ dt : String, (jget tcobj "datatype").bind JsonValue.asStr = some dt →
       infer_range_from_tc tcobj =
         (if dt == "http://www.w3.org/2001/XMLSchema#integer" then "integer"
          else if dt == "http://www.w3.org/2001/XMLSchema#decimal" then "number"
          else if dt == "http://www.w3.org/2001/XMLSchema#boolean" then "boolean"
          else if strBegins "http://www.w3.org/2001/XMLSchema#" dt then "string"
          else dt)) ∧
    ((jget tcobj "datatype").bind JsonValue.asStr = none →
     ∀ nk : String, (jget tcobj "nodeKind").bind JsonValue.asStr = some nk →
       infer_range_from_tc tcobj = "string") ∧
    ((jget tcobj "datatype").bind JsonValue.asStr = none →
     (jget tcobj "nodeKind").bind JsonValue.asStr = none →
      (∀ s : String, jget tcobj "valueClass" = some (JsonValue.str s) →
         infer_range_from_tc tcobj = s) ∧
      (∀ o : List (String × JsonValue), jget tcobj "valueClass" = some (JsonValue.obj o) →
         infer_range_from_tc tcobj =
           (match (jget o "reference").bind JsonValue.asStr with
            | some r => r
            | none => "string")) ∧
      (∀ v : JsonValue, jget tcobj "valueClass" = some v →
         (∀ s, v ≠ JsonValue.str s) → (∀ o, v ≠ JsonValue.obj o) →
         infer_range_from_tc tcobj = "string") ∧
      (jget tcobj "valueClass" = none → infer_range_from_tc tcobj = "string")) := by
  refine ⟨?_, ?_, ?_⟩
  · intro dt hdt
    simp only [infer_range_from_tc, hdt]
  · intro hdt nk hnk
    simp only [infer_range_from_tc, hdt, hnk]
  · intro hdt hnk
    refine ⟨?_, ?_, ?_, ?_⟩
    · intro s hvc
      simp only [infer_range_from_tc, hdt, hnk, hvc]
    · intro o hvc
      simp only [infer_range_from_tc, hdt, hnk, hvc]
    · intro v hvc hstr hobj
      simp only [infer_range_from_tc, hdt, hnk, hvc]
    · intro hvc
      simp only [infer_range_from_tc, hdt, hnk, hvc]

/-- Witness for C4 at a concrete constraint mapping. -/
theorem c4_witness :
    infer_range_from_tc
      [("datatype", JsonValue.str "http://www.w3.org/2001/XMLSchema#decimal")] = "number" := by
  rw [(c4_range_inference
    [("datatype", JsonValue.str "http://www.w3.org/2001/XMLSchema#decimal")]).1
    "http://www.w3.org/2001/XMLSchema#decimal" rfl]
  decide

/-- Claim C5: for every shape definition emitted to the JSON Schema
definitions mapping, a property's name appears in its required list exactly
when the property's min is present and strictly positive, the required
names are in declaration order, and the required key is absent when that
list is empty. -/
theorem c5_required_list (shapes : List ShapeInfo) (nm : String) (d : JsonValue)
    (h : lookupStr (schema_defs shapes) nm = some d) :
    JsonValue.getKey (build_json_schema shapes) "definitions" =
      some (JsonValue.obj (schema_defs shapes)) ∧
    ∃ s, s ∈ shapes ∧ s.name = nm ∧ d = shape_def s ∧
      (let req := (s.properties.filter
          (fun p => match p.min with
                    | some mn => decide (0 < mn)
                    | none => false)).map (fun p => JsonValue.str p.name)
       JsonValue.getKey d "required" =
         if req.isEmpty = true then none else some (JsonValue.arr req)) := by
  constructor
  · rfl
  · simp only [schema_defs] at h
    rw [lookupStr_defs_fold shapes [] nm] at h
    cases hf : shapes.reverse.find? (fun s => s.name == nm) with
    | none =>
        rw [hf] at h
        simp [lookupStr] at h
    | some s =>
        rw [hf] at h
        have hd : d = shape_def s := by simpa using h.symm
        have hmem : s ∈ shapes := List.mem_reverse.mp (List.mem_of_find?_eq_some hf)
        have hname : s.name = nm := by simpa using List.find?_some hf
        refine ⟨s, hmem, hname, hd, ?_⟩
        have hfe : s.properties.filter
            (fun p => match p.min with
                      | some mn => decide (0 < mn)
                      | none => false) =
            s.properties.filter (fun p => decide (0 < p.min.getD 0)) := by
          apply List.filter_congr
          intro p _
          exact min_pred_eq p
        simp only [hfe, hd]
        exact shape_def_required s

/-- A shape with one required and one optional property, for the C5
witness. -/
def c5_shape : ShapeInfo :=
  { id := "S", name := "S", properties :=
     [{ name := "a", predicate := "a", range := "string", min := some 1, max := none },
      { name := "b", predicate := "b", range := "string", min := some 0, max := none }] }

/-- Witness for C5 at a concrete shape list. -/
theorem c5_witness :
    JsonValue.getKey (build_json_schema [c5_shape]) "definitions" =
      some (JsonValue.obj (schema_defs [c5_shape])) ∧
    ∃ s, s ∈ [c5_shape] ∧ s.name = "S" ∧ shape_def c5_shape = shape_def s ∧
      (let req := (s.properties.filter
          (fun p => match p.min with
                    | some mn => decide (0 < mn)
                    | none => false)).map (fun p => JsonValue.str p.name)
       JsonValue.getKey (shape_def c5_shape) "required" =
         if req.isEmpty = true then none else some (JsonValue.arr req)) :=
  c5_required_list [c5_shape] "S" (shape_def c5_shape) rfl

/-- Claim C6: the Property built by the single-constraint builder has a name
equal to the substring of its predicate after the last occurrence of any of
slash, hash, colon; when the predicate contains none of these, the name is
the whole predicate. -/
theorem c6_name_last_segment (tcobj : List (String × JsonValue)) (p : String)
    (hp : (jget tcobj "predicate").bind JsonValue.asStr = some p) :
    ((∀ c ∈ p.data, sepChar c = false) → (build_prop_from_tc tcobj).name = p) ∧
    (∀ (l1 : List Char) (c : Char) (l2 : List Char),
       p.data = l1 ++ c :: l2 → sepChar c = true → (∀ x ∈ l2, sepChar x = false) →
       ((build_prop_from_tc tcobj).name).data = l2) := by
  have hname : (build_prop_from_tc tcobj).name =
      (((splitSegs p.data).getLast?).map String.mk).getD p := by
    simp only [build_prop_from_tc, hp, Option.getD_some]
  constructor
  · intro hnone
    rw [hname, splitSegs_all_neg p.data hnone]
    simp [strMkData]
  · intro l1 c l2 hsplit hc hl2
    rw [hname, hsplit, splitSegs_getLast c l2 hc hl2 l1]
    rfl

/-- Witness for C6 at a concrete constraint. -/
theorem c6_witness :
    ((build_prop_from_tc [("predicate", JsonValue.str "http://a#b")]).name).data = "b".data :=
  (c6_name_last_segment [("predicate", JsonValue.str "http://a#b")] "http://a#b" rfl).2
    "http://a".data '#' "b".data (by decide) (by decide) (by decide)

/-- Claim C7: the back-translator errors exactly when the document holds no
mapping under "classes" (the single hard error of the engine), and a
missing slots mapping is tolerated: the output is the same as with an empty
slots mapping appended. Extraction and the two forward emitters are total
functions into plain values (no error type), so they never raise an error
of their own. -/
theorem c7_error_iff (doc : YamlValue) :
    ((linkml_yaml_to_shex doc).isOk = true ↔
      ∃ m, yget doc "classes" = some (YamlValue.map m)) ∧
    (∀ kvs : List (YamlValue × YamlValue), doc = YamlValue.map kvs →
       yget doc "slots" = none →
       linkml_yaml_to_shex doc =
         linkml_yaml_to_shex (YamlValue.map
           (kvs ++ [(YamlValue.str "slots", YamlValue.map [])]))) := by
  constructor
  · rw [linkml_yaml_to_shex_eq]
    cases hcl : yget doc "classes" with
    | none => simp [exceptIsOk_error]
    | some v => cases v <;> simp [exceptIsOk_ok, exceptIsOk_error]
  · intro kvs hdoc hslots
    subst hdoc
    simp only [yget] at hslots
    have hc : ygetM (kvs ++ [(YamlValue.str "slots", YamlValue.map [])]) "classes" =
        ygetM kvs "classes" := by
      rw [ygetM_append]
      cases h2 : ygetM kvs "classes" with
      | some v => rfl
      | none => rfl
    have hsl : ygetM (kvs ++ [(YamlValue.str "slots", YamlValue.map [])]) "slots" =
        some (YamlValue.map []) := by
      rw [ygetM_append, hslots]
      rfl
    have hpfx : ygetM (kvs ++ [(YamlValue.str "slots", YamlValue.map [])]) "prefixes" =
        ygetM kvs "prefixes" := by
      rw [ygetM_append]
      cases h2 : ygetM kvs "prefixes" with
      | some v => rfl
      | none => rfl
    have hpp : prefix_pairs (YamlValue.map
        (kvs ++ [(YamlValue.str "slots", YamlValue.map [])])) =
        prefix_pairs (YamlValue.map kvs) := by
      simp only [prefix_pairs, yget]
      rw [hpfx]
    rw [linkml_yaml_to_shex_eq, linkml_yaml_to_shex_eq]
    simp only [yget]
    rw [hc, hsl, hslots, hpp]

/-- A document with a classes mapping and no slots key, for the C7
witness. -/
def c7_doc : YamlValue := YamlValue.map [(YamlValue.str "classes", YamlValue.map [])]

/-- Witness for C7 at a concrete document. -/
theorem c7_witness :
    linkml_yaml_to_shex c7_doc =
      linkml_yaml_to_shex (YamlValue.map
        ([(YamlValue.str "classes", YamlValue.map [])] ++
         [(YamlValue.str "slots", YamlValue.map [])])) :=
  (c7_error_iff c7_doc).2 [(YamlValue.str "classes", YamlValue.map [])] rfl rfl

/-- Claim C8: every Shape in the sequence returned by the extractor has a
non-empty property list; a candidate body whose extracted property list is
empty is never emitted. -/
theorem c8_shapes_nonempty (ast : JsonValue) (s : ShapeInfo)
    (h : s ∈ extract_shapes_from_ast ast) : s.properties ≠ [] :=
  walk_props_nonempty ast s h

/-- Witness for C8 at a concrete tree. -/
theorem c8_witness :
    ({ id := "A", name := "A", properties :=
        [{ name := "p", predicate := "http://e/p", range := "string",
           min := none, max := none }] } : ShapeInfo).properties ≠ [] :=
  c8_shapes_nonempty c1_ast _ (by decide)

/-- Claim C9: the LinkML emitter always produces a document with both a
classes mapping and a slots mapping (for any shape sequence, including the
empty one, and any input identifier), so the back-translator never raises
its missing-classes error on an emitted document. -/
theorem c9_emitted_doc_roundtrips (id : String) (shapes : List ShapeInfo) :
    (∃ cm, yget (build_linkml_doc id shapes) "classes" = some (YamlValue.map cm)) ∧
    (∃ sm, yget (build_linkml_doc id shapes) "slots" = some (YamlValue.map sm)) ∧
    (linkml_yaml_to_shex (build_linkml_doc id shapes)).isOk = true :=
  ⟨⟨_, rfl⟩, ⟨_, rfl⟩, rfl⟩

/-- Claim C10: the JSON Schema definitions mapping has pairwise distinct
keys; looking a name up in it yields the definition built from the last
shape in the input sequence with that name (and nothing when no shape has
that name), so duplicate shape names collapse last-write-wins. -/
theorem c10_definitions_last_write (shapes : List ShapeInfo) (nm : String) :
    ((schema_defs shapes).map Prod.fst).Nodup ∧
    lookupStr (schema_defs shapes) nm =
      (shapes.reverse.find? (fun s => s.name == nm)).map shape_def ∧
    JsonValue.getKey (build_json_schema shapes) "definitions" =
      some (JsonValue.obj (schema_defs shapes)) := by
  refine ⟨schema_defs_fold_nodup shapes [] (by simp), ?_, rfl⟩
  simp only [schema_defs]
  rw [lookupStr_defs_fold shapes [] nm]
  cases hf : shapes.reverse.find? (fun s => s.name == nm) with
  | some s => rfl
  | none => rfl

